import Mathlib

/-!
Shallow embedding of the planet-terrain repository (three.js based).

The in-repository logic — fBm terrain baking, surface cloning, wave
displacement, complexity reduction, asset loading — is translated into
executable Lean definitions.  External library code (three.js vector math
primitives such as square roots and trigonometric functions, the simplex
noise sampler, `BufferGeometryUtils.mergeVertices`, `SimplifyModifier.modify`,
`computeVertexNormals`, GLTF/texture loaders, and the `Math.random` entropy
source) is modelled by explicit function parameters, so every theorem
quantifies over the behaviour of those collaborators.
-/

namespace Planet

/-- A 3-component vector, mirroring `THREE.Vector3` viewed as plain data. -/
structure Vec3 (α : Type) where
  x : α
  y : α
  z : α
deriving DecidableEq, Repr

/-- External real-valued math primitives used by the source: `Math.sqrt`
(inside `Vector3.length` and `Vector3.distanceTo`), `Math.sin`, and the
constant `Math.PI`.  They are parameters of the embedding. -/
structure MathOps (α : Type) where
  sqrt : α → α
  sin : α → α
  pi : α

variable {α : Type} [LinearOrderedField α] {P E A : Type}

/-- Componentwise vector addition (`Vector3.add`). -/
def vadd (a b : Vec3 α) : Vec3 α := ⟨a.x + b.x, a.y + b.y, a.z + b.z⟩

/-- Componentwise vector subtraction (`Vector3.sub`). -/
def vsub (a b : Vec3 α) : Vec3 α := ⟨a.x - b.x, a.y - b.y, a.z - b.z⟩

/-- Scalar multiplication (`Vector3.multiplyScalar`). -/
def smul (s : α) (v : Vec3 α) : Vec3 α := ⟨s * v.x, s * v.y, s * v.z⟩

/-- Dot product (`Vector3.dot`); `dot v v` is the squared length. -/
def dot (a b : Vec3 α) : α := a.x * b.x + a.y * b.y + a.z * b.z

/-- Model of `Vector3.length`: square root of the squared length, with the square
root supplied by the `MathOps` collaborator. -/
def vlength (ops : MathOps α) (v : Vec3 α) : α := ops.sqrt (dot v v)

/-- Model of `Vector3.normalize`: three.js divides by `length || 1`, so the zero
vector (length `0`) is divided by `1` and stays the zero vector. -/
def normalize (ops : MathOps α) (v : Vec3 α) : Vec3 α :=
  let l := vlength ops v
  smul (1 / (if l = 0 then 1 else l)) v

/-- Model of `Vector3.distanceTo`: length of the difference vector. -/
def distanceTo (ops : MathOps α) (a b : Vec3 α) : α := vlength ops (vsub a b)

/-- A `BufferGeometry` as plain data: vertex positions, derived normals, an
optional triangle index, the optional `aBakedHeight` attribute written by
`lockColors`, and the optional `userData.originalPositions` snapshot that
`main.js` stores after a bake. -/
structure Geometry (α : Type) where
  positions : List (Vec3 α)
  normals : List (Vec3 α)
  index : Option (List Nat)
  bakedHeight : Option (List α)
  originalPositions : Option (List (Vec3 α))
deriving DecidableEq, Repr

/-- The slice of `THREE.Material` state touched by the source. -/
structure Material where
  flatShading : Bool
deriving DecidableEq, Repr

/-- A `THREE.Mesh`: geometry plus material. -/
structure Mesh (α : Type) where
  geometry : Geometry α
  material : Material
deriving DecidableEq, Repr

/-- The noise parameter object accepted by `bakeTerrain` in `part_000`. -/
structure NoiseParams (α : Type) where
  scale : α
  octaves : Nat
  persistence : α
  lacunarity : α
  amplitude : α
deriving DecidableEq, Repr

/-- The octave accumulation loop of `bakeTerrain` (`part_000`): starting
from `frequency`, `amplitude`, `noiseValue`, `maxValue`, each octave adds
`noise(v * frequency) * amplitude` to `noiseValue`, adds `amplitude` to
`maxValue`, then multiplies `amplitude` by `persistence` and `frequency`
by `lacunarity`.  Returns the final `(noiseValue, maxValue)`. -/
def fbmLoop (noise : α → α → α → α) (v : Vec3 α) (persistence lacunarity : α) :
    Nat → α → α → α → α → α × α
  | 0, _, _, noiseValue, maxValue => (noiseValue, maxValue)
  | o + 1, frequency, amplitude, noiseValue, maxValue =>
    let n := noise (v.x * frequency) (v.y * frequency) (v.z * frequency)
    fbmLoop noise v persistence lacunarity o (frequency * lacunarity)
      (amplitude * persistence) (noiseValue + n * amplitude) (maxValue + amplitude)

/-- The value `finalHeight` in `bakeTerrain` (`part_000`): the octave sum divided by
the sum of per-octave amplitude weights, times the overall amplitude. -/
def finalHeight (noise : α → α → α → α) (p : NoiseParams α) (v : Vec3 α) : α :=
  let r := fbmLoop noise v p.persistence p.lacunarity p.octaves p.scale 1 0 0
  r.1 / r.2 * p.amplitude

/-- The per-vertex displacement step of `bakeTerrain` (`part_000`):
`vertex.add(dir.multiplyScalar(finalHeight))` with `dir` the normalized
vertex position. -/
def bakeVertex (ops : MathOps α) (noise : α → α → α → α) (p : NoiseParams α)
    (v : Vec3 α) : Vec3 α :=
  vadd v (smul (finalHeight noise p v) (normalize ops v))

/-- Embedding of `bakeTerrain` from `part_000`: displace every vertex along its radial
direction by the fBm height, recompute vertex normals (the three.js
`computeVertexNormals` library routine is the parameter `cvn`, which writes
only the normal attribute), replace the geometry by
`BufferGeometryUtils.mergeVertices` (parameter `merge`), and set the
material to flat shading. -/
def bakeTerrain (ops : MathOps α) (merge : Geometry α → Geometry α)
    (cvn : List (Vec3 α) → Option (List Nat) → List (Vec3 α))
    (noise : α → α → α → α) (mesh : Mesh α) (p : NoiseParams α) : Mesh α :=
  let g1 := { mesh.geometry with
    positions := mesh.geometry.positions.map (bakeVertex ops noise p) }
  let g2 := { g1 with normals := cvn g1.positions g1.index }
  { geometry := merge g2, material := { mesh.material with flatShading := true } }

/-- The `regenerate` entry point wired to the GUI in `main.js`: it calls
`bakeTerrain` on the planet mesh as it currently is and then stores a copy
of the resulting position array into `userData.originalPositions`.  It does
not restore the unmodified base primitive first. -/
def regenerate (ops : MathOps α) (merge : Geometry α → Geometry α)
    (cvn : List (Vec3 α) → Option (List Nat) → List (Vec3 α))
    (noise : α → α → α → α) (p : NoiseParams α) (mesh : Mesh α) : Mesh α :=
  let baked := bakeTerrain ops merge cvn noise mesh p
  { baked with geometry :=
      { baked.geometry with originalPositions := some baked.geometry.positions } }

/-- The summed two-octave noise value of `bakeTerrain` in `part_001`:
`noise3D(v * 0.1) * 1.2 + noise3D(v * 0.4) * 0.3`. -/
def p1NoiseSum (noise : α → α → α → α) (v : Vec3 α) : α :=
  noise (v.x * (1 / 10)) (v.y * (1 / 10)) (v.z * (1 / 10)) * (6 / 5) +
    noise (v.x * (2 / 5)) (v.y * (2 / 5)) (v.z * (2 / 5)) * (3 / 10)

/-- The effective radial displacement scalar of `bakeTerrain` in
`part_001`: the summed noise, attenuated by the factor `0.1` when it is
negative (the shallow-oceans branch). -/
def p1Displacement (noise : α → α → α → α) (v : Vec3 α) : α :=
  let n := p1NoiseSum noise v
  if n < 0 then n * (1 / 10) else n

/-- The per-vertex step of `bakeTerrain` in `part_001`: displace the
vertex along its normalized direction by the attenuated noise value. -/
def bakeVertexP1 (ops : MathOps α) (noise : α → α → α → α) (v : Vec3 α) : Vec3 α :=
  vadd v (smul (p1Displacement noise v) (normalize ops v))

/-- Embedding of `bakeTerrain` from `part_001`: displaces all vertices, recomputes
normals, and captures the resulting positions as the baseline
(`originalPositions = position.array.slice()`). -/
def bakeTerrainP1 (ops : MathOps α)
    (cvn : List (Vec3 α) → Option (List Nat) → List (Vec3 α))
    (noise : α → α → α → α) (g : Geometry α) : Geometry α × List (Vec3 α) :=
  let g1 := { g with positions := g.positions.map (bakeVertexP1 ops noise) }
  let g2 := { g1 with normals := cvn g1.positions g1.index }
  (g2, g2.positions)

/-- Embedding of `lockColors` from `part_001`: writes for each vertex the
current distance from the origin (`vertex.length()`) into the `aBakedHeight` attribute. -/
def lockColors (ops : MathOps α) (g : Geometry α) : Geometry α :=
  { g with bakedHeight := some (g.positions.map (fun v => vlength ops v)) }

/-- The per-vertex body of `updateDisplacer` (`part_001`): starting from
the baseline position, compute the distance to the impact point, the
squared linear falloff with radius `15`, the sine wave
`sin(dist * 2 - time * 5) * audioVolume * falloff`, and displace the
baseline vertex along its normalized direction by that wave value. -/
def displaceVertex (ops : MathOps α) (impact : Vec3 α) (time audioVolume : α)
    (v : Vec3 α) : Vec3 α :=
  let dist := distanceTo ops v impact
  let falloff := max 0 (1 - dist / 15)
  let falloff2 := falloff ^ 2
  let wave := ops.sin (dist * 2 - time * 5) * audioVolume * falloff2
  vadd v (smul wave (normalize ops v))

/-- Embedding of `updateDisplacer` from `part_001`: recompute every position from the
stored baseline (`originalPositions`), then recompute normals.  The impact
point is the current value maintained by the external picking collaborator
(`updateRaycast`).  Only the position and normal attributes are written. -/
def updateDisplacer (ops : MathOps α)
    (cvn : List (Vec3 α) → Option (List Nat) → List (Vec3 α))
    (g : Geometry α) (originalPositions : List (Vec3 α)) (impact : Vec3 α)
    (time audioVolume : α) : Geometry α :=
  let newPos := (List.range g.positions.length).map
    (fun i => displaceVertex ops impact time audioVolume
      (originalPositions.getD i ⟨0, 0, 0⟩))
  let g1 := { g with positions := newPos }
  { g1 with normals := cvn g1.positions g1.index }

/-- The value `Math.floor(r * n)` for a draw `r` of `Math.random()`, used for both
vertex-index and prefab selection in `cloner`. -/
def randIndex [FloorRing α] (r : α) (n : Nat) : Nat := (⌊r * (n : α)⌋).toNat

/-- The `do … while (usedIndices.has(vIndex))` rejection loop of `cloner`:
draw `Math.floor(Math.random() * total)` from the entropy stream `rand`
(position `k`) until the result is not yet used.  The loop is fuelled;
`none` marks exhaustion of the fuel (the source loop would still be
spinning). -/
def drawIndex [FloorRing α] (rand : Nat → α) (total : Nat) (used : List Nat) :
    Nat → Nat → Option (Nat × Nat)
  | _, 0 => none
  | k, fuel + 1 =>
    let v := randIndex (rand k) total
    if v ∈ used then drawIndex rand total used (k + 1) fuel else some (v, k + 1)

/-- One placed instance produced by `cloner`: the source vertex index it
was placed at, the chosen prefab, the optional random scale, the world
position, the surface-alignment normal, and the optional random rotation
angles and local jitter offsets (their raw drawn values; applying them to
the transform is three.js library math). -/
structure Clone (α : Type) (P : Type) where
  vIndex : Nat
  prefab : P
  scale : Option α
  position : Vec3 α
  upNormal : Vec3 α
  rotation : Option (α × α × α)
  offset : Option (α × α × α)
deriving DecidableEq, Repr

/-- Outcome of a `cloner` call.  `ok` returns the clones pushed (each was
also added to the scene, in the same order).  `err` models the `TypeError`
thrown by `undefined.clone()` when the prefab lookup fails; it carries the
clones already added to the scene before the throw.  `outOfFuel` marks a
rejection-sampling loop that did not finish within the allotted fuel. -/
inductive ClonerResult (α : Type) (P : Type) where
  | ok : List (Clone α P) → ClonerResult α P
  | err : List (Clone α P) → ClonerResult α P
  | outOfFuel : ClonerResult α P
deriving DecidableEq, Repr

/-- Fixed data of one `cloner` invocation: math collaborators, the
`Math.random` stream, the vertex positions of the planet, its world transform
(`matrixWorld`) and world position, the prefab list, the `size` argument,
the three randomisation flags, and the fuel for each rejection loop. -/
structure ClonerCtx (α : Type) (P : Type) where
  ops : MathOps α
  rand : Nat → α
  positions : List (Vec3 α)
  world : Vec3 α → Vec3 α
  planetPos : Vec3 α
  prefabs : List P
  size : α
  scaleRand : Bool
  rotationRand : Bool
  positionRand : Bool
  fuel : Nat

/-- The main `for` loop of `cloner`, iterating `n` more times with stream
position `k`, used-index set `used`, and accumulated clones `acc` (most
recent first).  Each iteration: draw a fresh vertex index, pick
`prefabs[Math.floor(Math.random() * prefabs.length)]` (a failed lookup is
the thrown `TypeError`), optionally draw a scale, compute the world
position and alignment normal, optionally draw rotation angles and jitter
offsets, add the clone to the scene and the result list. -/
def clonerLoop [FloorRing α] (c : ClonerCtx α P) :
    Nat → List Nat → List (Clone α P) → Nat → ClonerResult α P
  | _, _, acc, 0 => .ok acc.reverse
  | k, used, acc, n + 1 =>
    match drawIndex c.rand c.positions.length used k c.fuel with
    | none => .outOfFuel
    | some (vIndex, k1) =>
      match c.prefabs.get? (randIndex (c.rand k1) c.prefabs.length) with
      | none => .err acc.reverse
      | some prefab =>
        let k2 := k1 + 1
        let scl := if c.scaleRand then
            some (c.rand k2 * ((2 / 1000) * c.size - (1 / 1000) * c.size) +
              (1 / 1000) * c.size)
          else none
        let k3 := k2 + (if c.scaleRand then 1 else 0)
        let pos := c.world (c.positions.getD vIndex ⟨0, 0, 0⟩)
        let nrm := normalize c.ops (vsub pos c.planetPos)
        let rot := if c.rotationRand then
            some (c.rand k3 * c.ops.pi * 2, c.rand (k3 + 1) * c.ops.pi * 2,
              c.rand (k3 + 2) * c.ops.pi * 2)
          else none
        let k4 := k3 + (if c.rotationRand then 3 else 0)
        let off := if c.positionRand then
            some ((c.rand k4 - 1 / 2) * (1 / 2), (c.rand (k4 + 1) - 1 / 2) * (1 / 2),
              (c.rand (k4 + 2) - 1 / 2) * (1 / 2))
          else none
        let k5 := k4 + (if c.positionRand then 3 else 0)
        clonerLoop c k5 (vIndex :: used)
          (⟨vIndex, prefab, scl, pos, nrm, rot, off⟩ :: acc) n

/-- Embedding of `cloner` from `part_000`: clamp the requested count to the vertex
count (`actualCount = Math.min(count, totalVertices)`) and run the
placement loop from stream position `0` with no used indices. -/
def cloner [FloorRing α] (ops : MathOps α) (rand : Nat → α) (fuel : Nat)
    (planet : Mesh α) (world : Vec3 α → Vec3 α) (planetPos : Vec3 α)
    (count : Int) (prefabs : List P) (size : α)
    (scaleRand rotationRand positionRand : Bool) : ClonerResult α P :=
  let totalVertices := planet.geometry.positions.length
  let actualCount := min count (totalVertices : Int)
  clonerLoop
    ⟨ops, rand, planet.geometry.positions, world, planetPos, prefabs, size,
      scaleRand, rotationRand, positionRand, fuel⟩
    0 [] [] actualCount.toNat

/-- The JavaScript built-in `String.prototype.endsWith`, modelled over the
character list of the string. -/
def strEndsWith (s p : String) : Bool := p.data.isSuffixOf s.data

/-- URL extensions routed to the GLTF loader in `loadAssets`. -/
def recognizedGltf (url : String) : Bool :=
  strEndsWith url (".glb") || strEndsWith url (".gltf")

/-- URL extensions routed to the texture loader in `loadAssets`. -/
def recognizedTex (url : String) : Bool :=
  strEndsWith url (".png") || strEndsWith url (".jpg")

/-- Embedding of `loadAssets` from `part_000` under `Promise.all` semantics: each entry
whose URL ends in a recognized extension is loaded by the matching loader
(the loaders are external collaborators returning success or rejection);
an entry with an unrecognized extension is skipped without error.  A
rejection of any attempted load rejects the whole call — there is no
per-entry recovery in the source. -/
def loadAssets (loadGltf loadTexture : String → Except E A) :
    List (String × String) → Except E (List (String × A))
  | [] => .ok []
  | (name, url) :: rest =>
    if recognizedGltf url then
      match loadGltf url with
      | .error e => .error e
      | .ok a =>
        match loadAssets loadGltf loadTexture rest with
        | .error e => .error e
        | .ok l => .ok ((name, a) :: l)
    else if recognizedTex url then
      match loadTexture url with
      | .error e => .error e
      | .ok a =>
        match loadAssets loadGltf loadTexture rest with
        | .error e => .error e
        | .ok l => .ok ((name, a) :: l)
    else loadAssets loadGltf loadTexture rest

/-- Whether an `Except` result is a success. -/
def exceptIsOk (r : Except E A) : Bool :=
  match r with
  | .ok _ => true
  | .error _ => false

/-- The result mapping `loadAssets` produces when every attempted load
succeeds: recognized entries paired with their loaded asset, unrecognized
entries excluded. -/
def expectedAssets (loadGltf loadTexture : String → Except E A)
    (entries : List (String × String)) : List (String × A) :=
  entries.filterMap (fun nu =>
    if recognizedGltf nu.2 then
      match loadGltf nu.2 with
      | .ok a => some (nu.1, a)
      | .error _ => none
    else if recognizedTex nu.2 then
      match loadTexture nu.2 with
      | .ok a => some (nu.1, a)
      | .error _ => none
    else none)

/-- Step 1 of `reduceMeshComplexity`: if the geometry has no index, the
local variable is replaced by `mergeVertices(geometry)`; the mesh itself
is not touched. -/
def weldIfUnindexed (merge : Geometry α → Geometry α) (g : Geometry α) : Geometry α :=
  if g.index = none then merge g else g

/-- Step 2 of `reduceMeshComplexity`:
`countToRemove = Math.floor(initialCount * reductionRatio)`. -/
def targetRemoveCount [FloorRing α] (g : Geometry α) ( reductionRatio : α) : Nat :=
  (⌊(g.positions.length : α) * reductionRatio⌋).toNat

/-- Embedding of `reduceMeshComplexity` from `part_000`: weld if unindexed, compute the
removal target, call `SimplifyModifier.modify` (parameter `modify`).  On
success, recompute normals and install the simplified geometry; on a
thrown error, log it (returned as the second component) and leave the
mesh untouched. -/
def reduceMeshComplexity [FloorRing α] (merge : Geometry α → Geometry α)
    (modify : Geometry α → Nat → Except String (Geometry α))
    (cvn : List (Vec3 α) → Option (List Nat) → List (Vec3 α))
    (mesh : Mesh α) ( reductionRatio : α) : Mesh α × Option String :=
  let geometry := weldIfUnindexed merge mesh.geometry
  match modify geometry (targetRemoveCount geometry reductionRatio) with
  | .ok simplified =>
    let s2 := { simplified with normals := cvn simplified.positions simplified.index }
    ({ mesh with geometry := s2 }, none)
  | .error e => (mesh, some e)

/-! ## Theorems -/

/-- Claim C8: `lockColors` writes, for each vertex, its current distance
from the origin into the `aBakedHeight` attribute, and a subsequent
`updateDisplacer` invocation leaves that attribute exactly at its locked
value: wave displacement rewrites only the position attribute (and the
normals derived from it), never `aBakedHeight`. -/
theorem lockColors_once_updateDisplacer_preserves (ops : MathOps α)
    (cvn : List (Vec3 α) → Option (List Nat) → List (Vec3 α)) (g : Geometry α)
    (orig : List (Vec3 α)) (impact : Vec3 α) (time vol : α) :
    (lockColors ops g).bakedHeight = some (g.positions.map (fun v => vlength ops v)) ∧
      (updateDisplacer ops cvn (lockColors ops g) orig impact time vol).bakedHeight =
        (lockColors ops g).bakedHeight :=
  ⟨rfl, rfl⟩

/-- Claim C9: a requested clone count that is zero or negative places
nothing and raises no error — `cloner` returns successfully with an empty
clone list, so nothing is added to the scene. -/
theorem cloner_nonpositive_count [FloorRing α] (ops : MathOps α) (rand : Nat → α)
    (fuel : Nat) (planet : Mesh α) (world : Vec3 α → Vec3 α) (planetPos : Vec3 α)
    (count : Int) (prefabs : List P) (size : α) (sR rR pR : Bool)
    (hcount : count ≤ 0) :
    cloner ops rand fuel planet world planetPos count prefabs size sR rR pR =
      .ok [] := by
  have h : (min count ((planet.geometry.positions.length : Nat) : Int)).toNat = 0 := by
    omega
  simp [cloner, h, clonerLoop]

/-- Witness for claim C9 at a concrete input: one vertex, count `-3`. -/
theorem cloner_nonpositive_count_witness :
    cloner (α := ℚ) (P := String) ⟨fun _ => 0, fun _ => 0, 0⟩ (fun _ => 0) 1
      ⟨⟨[⟨0, 0, 0⟩], [], none, none, none⟩, ⟨false⟩⟩ id ⟨0, 0, 0⟩ (-3) [("p")] 1
      false false false = .ok [] :=
  cloner_nonpositive_count _ _ _ _ _ _ _ _ _ _ _ _ (by decide)

/-- Claim C6: when `SimplifyModifier.modify` throws, `reduceMeshComplexity`
reports the failure and returns with the mesh — in particular its
geometry — exactly as it was. -/
theorem reduceMeshComplexity_error_preserves [FloorRing α]
    (merge : Geometry α → Geometry α)
    (modify : Geometry α → Nat → Except String (Geometry α))
    (cvn : List (Vec3 α) → Option (List Nat) → List (Vec3 α))
    (mesh : Mesh α) ( ratio : α) (e : String)
    (h : modify (weldIfUnindexed merge mesh.geometry)
        (targetRemoveCount (weldIfUnindexed merge mesh.geometry) ratio) =
        .error e) :
    reduceMeshComplexity merge modify cvn mesh ratio = (mesh, some e) := by
  unfold reduceMeshComplexity
  dsimp only
  rw [h]

/-- Witness for claim C6: a concrete unindexed mesh with an always-failing
simplifier; the original mesh comes back untouched with the report. -/
theorem reduceMeshComplexity_error_preserves_witness :
    reduceMeshComplexity (α := ℚ) id (fun _ _ => .error ("simplify failed"))
      (fun _ _ => []) ⟨⟨[⟨1, 2, 3⟩], [], none, none, none⟩, ⟨false⟩⟩ (1 / 2) =
      (⟨⟨[⟨1, 2, 3⟩], [], none, none, none⟩, ⟨false⟩⟩, some ("simplify failed")) :=
  reduceMeshComplexity_error_preserves _ _ _ _ _ _ rfl

/-- Claim C1 (refutation of the claimed behaviour, exhibiting the code
defect): the `regenerate` entry point of `main.js` bakes on top of the
already-baked geometry instead of re-deriving from the unmodified base
primitive, so two invocations with identical parameters yield different
vertex positions.  Concrete run: one vertex at `(1,0,0)`, constant noise
`1/2`, one octave, amplitude `1`; the first invocation yields
`(3/2, 0, 0)`, the second `(2, 0, 0)`. -/
theorem regenerate_twice_compounds :
    (regenerate (α := ℚ)
        ⟨fun s => if s = 1 then 1 else if s = 9 / 4 then 3 / 2 else 0, fun _ => 0, 0⟩
        id (fun _ _ => []) (fun _ _ _ => 1 / 2) ⟨1, 1, 1 / 2, 2, 1⟩
        (regenerate (α := ℚ)
          ⟨fun s => if s = 1 then 1 else if s = 9 / 4 then 3 / 2 else 0, fun _ => 0, 0⟩
          id (fun _ _ => []) (fun _ _ _ => 1 / 2) ⟨1, 1, 1 / 2, 2, 1⟩
          ⟨⟨[⟨1, 0, 0⟩], [], some [], none, none⟩, ⟨false⟩⟩)).geometry.positions ≠
      (regenerate (α := ℚ)
        ⟨fun s => if s = 1 then 1 else if s = 9 / 4 then 3 / 2 else 0, fun _ => 0, 0⟩
        id (fun _ _ => []) (fun _ _ _ => 1 / 2) ⟨1, 1, 1 / 2, 2, 1⟩
        ⟨⟨[⟨1, 0, 0⟩], [], some [], none, none⟩, ⟨false⟩⟩).geometry.positions := by
  norm_num [regenerate, bakeTerrain, bakeVertex, finalHeight, fbmLoop, normalize,
    vlength, dot, vadd, smul, Vec3.mk.injEq]

/-- Claim C5 (counterexample): a single failing asset does not leave the
other assets resolved — the whole `loadAssets` call rejects, because the
per-entry loads run with no per-entry recovery under `Promise.all`.  Here
asset `a` fails to decode and asset `b` would succeed, yet the call
produces the rejection instead of a mapping containing `b`. -/
theorem loadAssets_rejects_on_single_failure :
    loadAssets (E := String) (A := String)
      (fun u => if u = ("a.glb") then .error ("decode failure") else .ok ("scene"))
      (fun _ => .ok ("tex")) [(("a"), ("a.glb")), (("b"), ("b.png"))] =
      .error ("decode failure") := by
  rfl

/-- Helper: the index `i` entry of the position attribute written by
`updateDisplacer` is the displaced baseline vertex `i`. -/
theorem updateDisplacer_get (ops : MathOps α)
    (cvn : List (Vec3 α) → Option (List Nat) → List (Vec3 α)) (g : Geometry α)
    (orig : List (Vec3 α)) (impact : Vec3 α) (time vol : α) (i : Nat)
    (hi : i < g.positions.length) :
    (updateDisplacer ops cvn g orig impact time vol).positions.get? i =
      some (displaceVertex ops impact time vol (orig.getD i ⟨0, 0, 0⟩)) := by
  simp [updateDisplacer, List.get?_map, List.get?_range, hi]

/-- Claim C3: for every vertex index `i` in range, `updateDisplacer` sets
position `i` to
`baseline + normalize(baseline) * (sin(dist * 2 - time * 5) * audioVolume * max(0, 1 - dist / 15) ^ 2)`
where `dist` is the distance from the baseline vertex to the impact point
(`frequency = 2`, `timeScale = 5`, `falloffRadius = 15` are the constants of the source and `audioVolume` its amplitude); in particular every vertex at
distance at least `15` from the impact point is left exactly at its
baseline position, for every time value. -/
theorem updateDisplacer_wave_formula (ops : MathOps α)
    (cvn : List (Vec3 α) → Option (List Nat) → List (Vec3 α)) (g : Geometry α)
    (orig : List (Vec3 α)) (impact : Vec3 α) (time vol : α) (i : Nat) (v : Vec3 α)
    (hi : i < g.positions.length) (hv : orig.getD i ⟨0, 0, 0⟩ = v) :
    (updateDisplacer ops cvn g orig impact time vol).positions.get? i =
        some (vadd v (smul (ops.sin (distanceTo ops v impact * 2 - time * 5) * vol *
          (max 0 (1 - distanceTo ops v impact / 15)) ^ 2) (normalize ops v))) ∧
      (15 ≤ distanceTo ops v impact →
        (updateDisplacer ops cvn g orig impact time vol).positions.get? i = some v) := by
  have hmap := updateDisplacer_get ops cvn g orig impact time vol i hi
  rw [hv] at hmap
  constructor
  · rw [hmap]; rfl
  · intro hdist
    have hfall : max 0 (1 - distanceTo ops v impact / 15) = 0 := by
      have h1 : 1 - distanceTo ops v impact / 15 ≤ 0 := by
        rw [sub_nonpos, le_div_iff (by norm_num : (0 : α) < 15)]
        linarith
      exact max_eq_left h1
    rw [hmap]
    unfold displaceVertex
    dsimp only
    rw [hfall]
    simp [vadd, smul]

/-- Witness for claim C3: baseline vertex `(20,0,0)`, impact at the origin
(distance `20 ≥ 15`), nonzero amplitude and a sine collaborator returning
`7` everywhere: the displaced position is exactly the baseline. -/
theorem updateDisplacer_wave_formula_witness :
    (updateDisplacer (α := ℚ) ⟨fun s => if s = 400 then 20 else 0, fun _ => 7, 0⟩
        (fun _ _ => []) ⟨[⟨1, 2, 3⟩], [], none, none, none⟩ [⟨20, 0, 0⟩]
        ⟨0, 0, 0⟩ 0 1).positions.get? 0 = some ⟨20, 0, 0⟩ := by
  refine (updateDisplacer_wave_formula (α := ℚ)
    ⟨fun s => if s = 400 then 20 else 0, fun _ => 7, 0⟩ (fun _ _ => [])
    ⟨[⟨1, 2, 3⟩], [], none, none, none⟩ [⟨20, 0, 0⟩] ⟨0, 0, 0⟩ 0 1 0 ⟨20, 0, 0⟩
    (by norm_num) rfl).2 ?_
  norm_num [distanceTo, vlength, vsub, dot]

/-- Claim C10: in the wave-pipeline terrain bake of `part_001`, a negative
summed noise value is multiplied by `0.1` before displacement; with raw
noise samples in `[-1, 1]` the effective radial displacement scalar lies
in `[-0.15, 1.5]` — inward (ocean) displacement is attenuated tenfold
relative to outward displacement — and the baked vertex is the base vertex
displaced along its normalized direction by exactly that scalar. -/
theorem bakeTerrainP1_ocean_attenuation (noise : α → α → α → α) (v : Vec3 α)
    (hn : ∀ x y z : α, -1 ≤ noise x y z ∧ noise x y z ≤ 1) :
    (-(3 / 20) ≤ p1Displacement noise v ∧ p1Displacement noise v ≤ 3 / 2) ∧
      (p1NoiseSum noise v < 0 →
        p1Displacement noise v = p1NoiseSum noise v * (1 / 10)) ∧
      ∀ ops : MathOps α, bakeVertexP1 ops noise v =
        vadd v (smul (p1Displacement noise v) (normalize ops v)) := by
  obtain ⟨h1l, h1r⟩ := hn (v.x * (1 / 10)) (v.y * (1 / 10)) (v.z * (1 / 10))
  obtain ⟨h2l, h2r⟩ := hn (v.x * (2 / 5)) (v.y * (2 / 5)) (v.z * (2 / 5))
  have hlo : -(3 / 2 : α) ≤ p1NoiseSum noise v := by unfold p1NoiseSum; linarith
  have hhi : p1NoiseSum noise v ≤ 3 / 2 := by unfold p1NoiseSum; linarith
  refine ⟨⟨?_, ?_⟩, ?_, fun ops => rfl⟩
  · unfold p1Displacement
    dsimp only
    split <;> linarith
  · unfold p1Displacement
    dsimp only
    split <;> linarith
  · intro hneg
    unfold p1Displacement
    dsimp only
    rw [if_pos hneg]

/-- Witness for claim C10: constant noise `-1` keeps the displacement
scalar within `[-0.15, 1.5]` (here it is exactly `-0.15`). -/
theorem bakeTerrainP1_ocean_attenuation_witness :
    -(3 / 20 : ℚ) ≤ p1Displacement (fun _ _ _ => (-1 : ℚ)) ⟨1, 0, 0⟩ ∧
      p1Displacement (fun _ _ _ => (-1 : ℚ)) ⟨1, 0, 0⟩ ≤ 3 / 2 :=
  (bakeTerrainP1_ocean_attenuation (fun _ _ _ => (-1 : ℚ)) ⟨1, 0, 0⟩
    (fun _ _ _ => by norm_num)).1

/-- Helper: through the octave loop, the accumulated noise value stays
within the accumulated amplitude weight, which itself only grows (and
grows by at least the incoming amplitude when at least one octave runs). -/
theorem fbmLoop_abs_le (noise : α → α → α → α) (v : Vec3 α) (per lac : α)
    (hn : ∀ x y z : α, -1 ≤ noise x y z ∧ noise x y z ≤ 1) (hper : 0 < per) :
    ∀ (o : Nat) (freq amp nv mv : α), 0 < amp → |nv| ≤ mv →
      |(fbmLoop noise v per lac o freq amp nv mv).1| ≤
          (fbmLoop noise v per lac o freq amp nv mv).2 ∧
        (o ≠ 0 → mv + amp ≤ (fbmLoop noise v per lac o freq amp nv mv).2) := by
  intro o
  induction o with
  | zero =>
    intro freq amp nv mv hamp hnv
    simp [fbmLoop, hnv]
  | succ o ih =>
    intro freq amp nv mv hamp hnv
    rw [fbmLoop]
    obtain ⟨hnl, hnr⟩ := hn (v.x * freq) (v.y * freq) (v.z * freq)
    have habs : |nv + noise (v.x * freq) (v.y * freq) (v.z * freq) * amp| ≤ mv + amp := by
      have h1 : |noise (v.x * freq) (v.y * freq) (v.z * freq) * amp| ≤ amp := by
        rw [abs_mul, abs_of_pos hamp]
        have h2 : |noise (v.x * freq) (v.y * freq) (v.z * freq)| ≤ 1 :=
          abs_le.mpr ⟨hnl, hnr⟩
        nlinarith
      calc |nv + noise (v.x * freq) (v.y * freq) (v.z * freq) * amp| ≤
          |nv| + |noise (v.x * freq) (v.y * freq) (v.z * freq) * amp| := abs_add _ _
        _ ≤ mv + amp := by linarith
    have hrec := ih (freq * lac) (amp * per) (nv + noise (v.x * freq) (v.y * freq)
      (v.z * freq) * amp) (mv + amp) (by positivity) habs
    refine ⟨hrec.1, fun _ => ?_⟩
    rcases Nat.eq_zero_or_pos o with rfl | ho
    · have : (fbmLoop noise v per lac 0 (freq * lac) (amp * per)
          (nv + noise (v.x * freq) (v.y * freq) (v.z * freq) * amp) (mv + amp)).2 =
          mv + amp := rfl
      rw [this]
    · have h3 := hrec.2 (by omega)
      have hap : 0 < amp * per := by positivity
      linarith

/-- Helper: the fBm value of `bakeTerrain` (`part_000`) — octave sum over
weight sum, times the amplitude parameter — has magnitude at most the
amplitude parameter, assuming raw noise samples in `[-1, 1]`, at least one
octave, and positive persistence. -/
theorem abs_finalHeight_le (noise : α → α → α → α) (p : NoiseParams α) (v : Vec3 α)
    (hn : ∀ x y z : α, -1 ≤ noise x y z ∧ noise x y z ≤ 1)
    (hper : 0 < p.persistence) (hoct : 1 ≤ p.octaves) (hamp : 0 ≤ p.amplitude) :
    |finalHeight noise p v| ≤ p.amplitude := by
  have h := fbmLoop_abs_le noise v p.persistence p.lacunarity hn hper p.octaves
    p.scale 1 0 0 one_pos (by simp)
  have hmv : (1 : α) ≤
      (fbmLoop noise v p.persistence p.lacunarity p.octaves p.scale 1 0 0).2 := by
    have := h.2 (by omega)
    linarith
  have habs := h.1
  unfold finalHeight
  rw [abs_mul, abs_div, abs_of_nonneg hamp,
    abs_of_pos (by linarith :
      (0 : α) < (fbmLoop noise v p.persistence p.lacunarity p.octaves p.scale 1 0 0).2)]
  have hdiv : |(fbmLoop noise v p.persistence p.lacunarity p.octaves p.scale 1 0 0).1| /
      (fbmLoop noise v p.persistence p.lacunarity p.octaves p.scale 1 0 0).2 ≤ 1 :=
    (div_le_one (by linarith)).mpr habs
  nlinarith [abs_nonneg (fbmLoop noise v p.persistence p.lacunarity p.octaves p.scale 1 0 0).1]

/-- Helper: a vector whose squared length is zero is the zero vector. -/
theorem dot_self_zero {v : Vec3 α} (h : dot v v = 0) : v = ⟨0, 0, 0⟩ := by
  obtain ⟨x, y, z⟩ := v
  unfold dot at h
  dsimp only at h
  have hx : x * x = 0 := by nlinarith [mul_self_nonneg x, mul_self_nonneg y, mul_self_nonneg z]
  have hy : y * y = 0 := by nlinarith [mul_self_nonneg x, mul_self_nonneg y, mul_self_nonneg z]
  have hz : z * z = 0 := by nlinarith [mul_self_nonneg x, mul_self_nonneg y, mul_self_nonneg z]
  have := mul_self_eq_zero.mp hx
  have := mul_self_eq_zero.mp hy
  have := mul_self_eq_zero.mp hz
  simp_all

/-- Helper: algebraic identity for displacing a vector along itself. -/
theorem dot_vadd_smul_self (v : Vec3 α) (c : α) :
    dot (vadd v (smul c v)) (vadd v (smul c v)) = (1 + c) ^ 2 * dot v v := by
  unfold dot vadd smul
  ring

/-- Helper: nested scalar multiplications collapse. -/
theorem smul_smul_eq (a b : α) (v : Vec3 α) : smul a (smul b v) = smul (a * b) v := by
  unfold smul
  dsimp only
  rw [Vec3.mk.injEq]
  refine ⟨by ring, by ring, by ring⟩

/-- Helper: any nonnegative number whose square is the squared length of
the baked vertex lies within `amplitude` of the original radius. -/
theorem bakeVertex_radius (ops : MathOps α) (noise : α → α → α → α)
    (p : NoiseParams α) (v : Vec3 α)
    (hn : ∀ x y z : α, -1 ≤ noise x y z ∧ noise x y z ≤ 1)
    (hper : 0 < p.persistence) (hoct : 1 ≤ p.octaves) (hamp : 0 ≤ p.amplitude)
    (hs0 : 0 ≤ ops.sqrt (dot v v)) (hs2 : ops.sqrt (dot v v) ^ 2 = dot v v) :
    ∀ d : α, 0 ≤ d →
      d ^ 2 = dot (bakeVertex ops noise p v) (bakeVertex ops noise p v) →
      ops.sqrt (dot v v) - p.amplitude ≤ d ∧ d ≤ ops.sqrt (dot v v) + p.amplitude := by
  intro d hd hd2
  obtain ⟨hhl, hhr⟩ := abs_le.mp (abs_finalHeight_le noise p v hn hper hoct hamp)
  set s := ops.sqrt (dot v v) with hs_def
  by_cases hr : s = 0
  · have hv0 : dot v v = 0 := by rw [← hs2, hr]; ring
    have hveq : v = ⟨0, 0, 0⟩ := dot_self_zero hv0
    have hbv : bakeVertex ops noise p v = v := by
      rw [hveq]
      unfold bakeVertex normalize
      simp [vadd, smul]
    rw [hbv, hveq] at hd2
    have hd0 : d = 0 := by
      have hsq0 : d ^ 2 = 0 := by rw [hd2]; unfold dot; ring
      exact pow_eq_zero_iff (two_ne_zero) |>.mp hsq0
    rw [hr, hd0]
    constructor <;> linarith
  · have hnorm : normalize ops v = smul (1 / s) v := by
      unfold normalize vlength
      dsimp only
      rw [← hs_def, if_neg hr]
    have hbv : bakeVertex ops noise p v =
        vadd v (smul (finalHeight noise p v * (1 / s)) v) := by
      unfold bakeVertex
      rw [hnorm, smul_smul_eq]
    have key : dot (bakeVertex ops noise p v) (bakeVertex ops noise p v) =
        (s + finalHeight noise p v) ^ 2 := by
      rw [hbv, dot_vadd_smul_self, ← hs2]
      field_simp
    rw [key] at hd2
    have hfac : (d - (s + finalHeight noise p v)) *
        (d + (s + finalHeight noise p v)) = 0 := by
      linear_combination hd2
    rcases mul_eq_zero.mp hfac with h0 | h0
    · have hdeq : d = s + finalHeight noise p v := by linarith
      constructor <;> linarith
    · have hdeq : d = -(s + finalHeight noise p v) := by linarith
      constructor <;> linarith

/-- Claim C4: assuming every raw `noise3D` sample lies in `[-1, 1]` (and
positive persistence, at least one octave, nonnegative amplitude, a square
root collaborator correct on the vertices of the mesh, and a `mergeVertices`
collaborator that only keeps existing vertex positions), the fBm value of
`bakeTerrain` has magnitude at most `params.amplitude`, and every vertex
of the baked mesh is a displaced original vertex whose distance from the
origin changed by at most `params.amplitude`. -/
theorem bakeTerrain_amplitude_bound (ops : MathOps α)
    (merge : Geometry α → Geometry α)
    (cvn : List (Vec3 α) → Option (List Nat) → List (Vec3 α))
    (noise : α → α → α → α) (mesh : Mesh α) (p : NoiseParams α)
    (hn : ∀ x y z : α, -1 ≤ noise x y z ∧ noise x y z ≤ 1)
    (hper : 0 < p.persistence) (hoct : 1 ≤ p.octaves) (hamp : 0 ≤ p.amplitude)
    (hmerge : ∀ g : Geometry α, ∀ w ∈ (merge g).positions, w ∈ g.positions)
    (hsq : ∀ v ∈ mesh.geometry.positions,
      0 ≤ ops.sqrt (dot v v) ∧ ops.sqrt (dot v v) ^ 2 = dot v v) :
    (∀ v ∈ mesh.geometry.positions, |finalHeight noise p v| ≤ p.amplitude) ∧
      ∀ w ∈ (bakeTerrain ops merge cvn noise mesh p).geometry.positions,
        ∃ v ∈ mesh.geometry.positions, w = bakeVertex ops noise p v ∧
          ∀ d : α, 0 ≤ d → d ^ 2 = dot w w →
            ops.sqrt (dot v v) - p.amplitude ≤ d ∧
              d ≤ ops.sqrt (dot v v) + p.amplitude := by
  constructor
  · intro v hv
    exact abs_finalHeight_le noise p v hn hper hoct hamp
  · intro w hw
    have hw2 : w ∈ mesh.geometry.positions.map (bakeVertex ops noise p) :=
      hmerge _ w hw
    obtain ⟨v, hv, hveq⟩ := List.mem_map.mp hw2
    refine ⟨v, hv, hveq.symm, fun d hd hd2 => ?_⟩
    obtain ⟨hsa, hsb⟩ := hsq v hv
    exact bakeVertex_radius ops noise p v hn hper hoct hamp hsa hsb d hd
      (by rw [← hveq] at hd2; exact hd2)

/-- Witness for claim C4, instantiating the end-to-end scenario of the
spec at one vertex of a radius-10 sphere with octaves 4, persistence 1/2,
lacunarity 2, scale 1/20, amplitude 4 and constant noise 1: the baked
vertex is `(14,0,0)` and its radius `14` lies within `[10-4, 10+4]`. -/
theorem bakeTerrain_amplitude_bound_witness :
    (10 : ℚ) - 4 ≤ 14 ∧ (14 : ℚ) ≤ 10 + 4 := by
  have H := (bakeTerrain_amplitude_bound (α := ℚ)
    ⟨fun s => if s = 100 then 10 else 0, fun _ => 0, 0⟩ id (fun _ _ => [])
    (fun _ _ _ => 1) ⟨⟨[⟨10, 0, 0⟩], [], some [], none, none⟩, ⟨false⟩⟩
    ⟨1 / 20, 4, 1 / 2, 2, 4⟩ (fun _ _ _ => by norm_num) (by norm_num) (by norm_num)
    (by norm_num) (fun _ _ hw => hw)
    (by
      intro v hv
      simp only [List.mem_singleton] at hv
      subst hv
      norm_num [dot])).2
  have hmem : (⟨14, 0, 0⟩ : Vec3 ℚ) ∈
      (bakeTerrain (α := ℚ) ⟨fun s => if s = 100 then 10 else 0, fun _ => 0, 0⟩ id
        (fun _ _ => []) (fun _ _ _ => 1) ⟨⟨[⟨10, 0, 0⟩], [], some [], none, none⟩,
        ⟨false⟩⟩ ⟨1 / 20, 4, 1 / 2, 2, 4⟩).geometry.positions := by
    norm_num [bakeTerrain, bakeVertex, finalHeight, fbmLoop, normalize, vlength, dot,
      vadd, smul]
  obtain ⟨v, hv, hw, hd⟩ := H ⟨14, 0, 0⟩ hmem
  simp only [List.mem_singleton] at hv
  subst hv
  have hb := hd 14 (by norm_num) (by norm_num [dot])
  have hs10 : (⟨fun s => if s = 100 then 10 else 0, fun _ => 0, 0⟩ : MathOps ℚ).sqrt
      (dot (⟨10, 0, 0⟩ : Vec3 ℚ) ⟨10, 0, 0⟩) = 10 := by
    norm_num [dot]
  rw [hs10] at hb
  exact hb

/-- Helper: `Math.floor(r * n)` lands in `[0, n)` when `r` is a
`Math.random()` draw (in `[0, 1)`) and `n` is positive. -/
theorem randIndex_lt [FloorRing α] {r : α} (h0 : 0 ≤ r) (h1 : r < 1) {n : Nat}
    (hn : 0 < n) : randIndex r n < n := by
  unfold randIndex
  have hcast : (0 : α) < (n : α) := by exact_mod_cast hn
  have hfl : ⌊r * (n : α)⌋ < (n : Int) := by
    rw [Int.floor_lt]
    push_cast
    nlinarith
  have hfge : (0 : Int) ≤ ⌊r * (n : α)⌋ := Int.floor_nonneg.mpr (by positivity)
  omega

/-- Helper: a successful rejection-sampling draw yields an index that is
not yet used and is in range. -/
theorem drawIndex_spec [FloorRing α] (rand : Nat → α) (total : Nat) (used : List Nat)
    (hrand : ∀ j, 0 ≤ rand j ∧ rand j < 1) (htot : 0 < total) :
    ∀ (fuel k v k1 : Nat), drawIndex rand total used k fuel = some (v, k1) →
      v ∉ used ∧ v < total := by
  intro fuel
  induction fuel with
  | zero =>
    intro k v k1 h
    simp [drawIndex] at h
  | succ fuel ih =>
    intro k v k1 h
    rw [drawIndex] at h
    by_cases hmem : randIndex (rand k) total ∈ used
    · rw [if_pos hmem] at h
      exact ih _ _ _ h
    · rw [if_neg hmem] at h
      simp only [Option.some.injEq, Prod.mk.injEq] at h
      obtain ⟨rfl, rfl⟩ := h
      exact ⟨hmem, randIndex_lt (hrand k).1 (hrand k).2 htot⟩

/-- Helper: when the placement loop returns successfully, the produced
clone list extends the accumulator with `n` fresh vertex indices that are
pairwise distinct, unused, and in range. -/
theorem clonerLoop_ok_spec [FloorRing α] (c : ClonerCtx α P)
    (hrand : ∀ j, 0 ≤ c.rand j ∧ c.rand j < 1) (htot : 0 < c.positions.length) :
    ∀ (n k : Nat) (used : List Nat) (acc l : List (Clone α P)),
      clonerLoop c k used acc n = .ok l →
      ∃ tail : List Nat,
        l.map (fun cl => cl.vIndex) = acc.reverse.map (fun cl => cl.vIndex) ++ tail ∧
          tail.length = n ∧ tail.Nodup ∧
          ∀ v ∈ tail, v ∉ used ∧ v < c.positions.length := by
  intro n
  induction n with
  | zero =>
    intro k used acc l h
    rw [clonerLoop] at h
    simp only [ClonerResult.ok.injEq] at h
    subst h
    exact ⟨[], by simp, rfl, List.nodup_nil, by simp⟩
  | succ n ih =>
    intro k used acc l h
    rw [clonerLoop] at h
    cases hdraw : drawIndex c.rand c.positions.length used k c.fuel with
    | none =>
      rw [hdraw] at h
      exact absurd h (by simp)
    | some pr =>
      obtain ⟨v, k1⟩ := pr
      rw [hdraw] at h
      dsimp only at h
      obtain ⟨hvused, hvlt⟩ := drawIndex_spec c.rand _ used hrand htot _ _ _ _ hdraw
      cases hget : c.prefabs.get? (randIndex (c.rand k1) c.prefabs.length) with
      | none =>
        rw [hget] at h
        exact absurd h (by simp)
      | some prefab =>
        rw [hget] at h
        obtain ⟨tail, h1, h2, h3, h4⟩ := ih _ _ _ _ h
        refine ⟨v :: tail, ?_, by simp [h2], ?_, ?_⟩
        · rw [h1]
          simp
        · refine List.nodup_cons.mpr ⟨fun hvt => ?_, h3⟩
          exact (h4 v hvt).1 (List.mem_cons_self v used)
        · intro w hw
          rcases List.mem_cons.mp hw with rfl | hw2
          · exact ⟨hvused, hvlt⟩
          · obtain ⟨hw3, hw4⟩ := h4 w hw2
            exact ⟨fun hwu => hw3 (List.mem_cons_of_mem _ hwu), hw4⟩

/-- Claim C2: on a mesh with at least one vertex, with a non-empty prefab
list and a nonnegative requested count, every terminating `cloner` run
returns exactly `min(count, vertexCount)` instances whose source vertex
indices are pairwise distinct (and in range) — the count clamps to the
vertex count and vertices are never sampled with replacement. -/
theorem cloner_count_distinct [FloorRing α] (ops : MathOps α) (rand : Nat → α)
    (fuel : Nat) (planet : Mesh α) (world : Vec3 α → Vec3 α) (planetPos : Vec3 α)
    (count : Int) (prefabs : List P) (size : α) (sR rR pR : Bool)
    (l : List (Clone α P))
    (hcount : 0 ≤ count)
    (hpos : planet.geometry.positions ≠ [])
    (hpre : prefabs ≠ [])
    (hrand : ∀ j, 0 ≤ rand j ∧ rand j < 1)
    (hok : cloner ops rand fuel planet world planetPos count prefabs size sR rR pR =
      .ok l) :
    l.length = min count.toNat planet.geometry.positions.length ∧
      (l.map (fun cl => cl.vIndex)).Nodup ∧
      ∀ v ∈ l.map (fun cl => cl.vIndex), v < planet.geometry.positions.length := by
  have htot : 0 < planet.geometry.positions.length := List.length_pos.mpr hpos
  obtain ⟨tail, h1, h2, h3, h4⟩ := clonerLoop_ok_spec
    ⟨ops, rand, planet.geometry.positions, world, planetPos, prefabs, size, sR, rR, pR,
      fuel⟩ hrand htot _ _ _ _ _ hok
  have hmap : l.map (fun cl => cl.vIndex) = tail := by simpa using h1
  refine ⟨?_, ?_, ?_⟩
  · have hlen : l.length = tail.length := by
      rw [← List.length_map l (fun cl => cl.vIndex), hmap]
    rw [hlen, h2]
    omega
  · rw [hmap]
    exact h3
  · intro v hv
    rw [hmap] at hv
    exact (h4 v hv).2

/-- Witness for claim C2: three vertices, requested count 5, one prefab,
an explicit entropy stream; the run returns `min 5 3 = 3` clones at the
pairwise-distinct vertex indices 0, 2, 1. -/
theorem cloner_count_distinct_witness :
    ([⟨0, ("p"), none, ⟨0, 0, 0⟩, ⟨0, 0, 0⟩, none, none⟩,
        ⟨2, ("p"), none, ⟨0, 0, 0⟩, ⟨0, 0, 0⟩, none, none⟩,
        ⟨1, ("p"), none, ⟨0, 0, 0⟩, ⟨0, 0, 0⟩, none, none⟩] :
      List (Clone ℚ String)).length = min (5 : Int).toNat 3 ∧
      (([⟨0, ("p"), none, ⟨0, 0, 0⟩, ⟨0, 0, 0⟩, none, none⟩,
          ⟨2, ("p"), none, ⟨0, 0, 0⟩, ⟨0, 0, 0⟩, none, none⟩,
          ⟨1, ("p"), none, ⟨0, 0, 0⟩, ⟨0, 0, 0⟩, none, none⟩] :
        List (Clone ℚ String)).map (fun cl => cl.vIndex)).Nodup ∧
      ∀ v ∈ (([⟨0, ("p"), none, ⟨0, 0, 0⟩, ⟨0, 0, 0⟩, none, none⟩,
          ⟨2, ("p"), none, ⟨0, 0, 0⟩, ⟨0, 0, 0⟩, none, none⟩,
          ⟨1, ("p"), none, ⟨0, 0, 0⟩, ⟨0, 0, 0⟩, none, none⟩] :
        List (Clone ℚ String)).map (fun cl => cl.vIndex)), v < 3 := by
  refine cloner_count_distinct (α := ℚ) ⟨fun _ => 0, fun _ => 0, 0⟩
    (fun k => if k = 2 then 2 / 3 else if k = 4 then 1 / 3 else 0) 1
    ⟨⟨[⟨0, 0, 0⟩, ⟨0, 0, 0⟩, ⟨0, 0, 0⟩], [], none, none, none⟩, ⟨false⟩⟩ id ⟨0, 0, 0⟩
    5 [("p")] 1 false false false _ (by norm_num) (by simp) (by simp)
    (fun j => by dsimp only; split_ifs <;> norm_num) ?_
  norm_num [cloner, clonerLoop, drawIndex, randIndex, normalize, vlength, vsub, dot,
    smul, List.getD, show (2 : Int).toNat = 2 from rfl, show (1 : Int).toNat = 1 from rfl]

/-- Claim C7: calling `cloner` with an empty prefab array, a positive
requested count, and a mesh with at least one vertex throws on the first
iteration (the `TypeError` from `undefined.clone()`): the operation aborts
with no clone returned and nothing added to the scene. -/
theorem cloner_empty_prefabs_aborts [FloorRing α] (ops : MathOps α) (rand : Nat → α)
    (fuel : Nat) (planet : Mesh α) (world : Vec3 α → Vec3 α) (planetPos : Vec3 α)
    (count : Int) (size : α) (sR rR pR : Bool)
    (hcount : 1 ≤ count)
    (hpos : planet.geometry.positions ≠ [])
    (hfuel : 1 ≤ fuel) :
    cloner ops rand fuel planet world planetPos count ([] : List P) size sR rR pR =
      .err [] := by
  have htot : 0 < planet.geometry.positions.length := List.length_pos.mpr hpos
  obtain ⟨m, hm⟩ : ∃ m, (min count ((planet.geometry.positions.length : Nat) : Int)).toNat
      = m + 1 := ⟨(min count ((planet.geometry.positions.length : Nat) : Int)).toNat - 1,
        by omega⟩
  obtain ⟨f, rfl⟩ : ∃ f, fuel = f + 1 := ⟨fuel - 1, by omega⟩
  unfold cloner
  dsimp only
  rw [hm, clonerLoop]
  dsimp only
  rw [drawIndex]
  simp [randIndex]

/-- Witness for claim C7: one vertex, count 2, no prefabs — the thrown
error carries an empty scene-addition list. -/
theorem cloner_empty_prefabs_aborts_witness :
    cloner (α := ℚ) (P := String) ⟨fun _ => 0, fun _ => 0, 0⟩ (fun _ => 0) 3
      ⟨⟨[⟨1, 2, 3⟩], [], none, none, none⟩, ⟨false⟩⟩ id ⟨0, 0, 0⟩ 2 [] 1
      false false false = .err [] :=
  cloner_empty_prefabs_aborts _ _ _ _ _ _ _ _ _ _ _ (by norm_num) (by simp) (by norm_num)

/-- Helper: one unfolding step of the expected result mapping. -/
theorem expectedAssets_cons (loadGltf loadTexture : String → Except E A)
    (name url : String) (tl : List (String × String)) :
    expectedAssets loadGltf loadTexture ((name, url) :: tl) =
      (if recognizedGltf url then
        match loadGltf url with
        | .ok a => (name, a) :: expectedAssets loadGltf loadTexture tl
        | .error _ => expectedAssets loadGltf loadTexture tl
      else if recognizedTex url then
        match loadTexture url with
        | .ok a => (name, a) :: expectedAssets loadGltf loadTexture tl
        | .error _ => expectedAssets loadGltf loadTexture tl
      else expectedAssets loadGltf loadTexture tl) := by
  cases hg : recognizedGltf url
  · cases ht : recognizedTex url
    · simp [expectedAssets, List.filterMap_cons, hg, ht]
    · cases hlt : loadTexture url <;>
        simp [expectedAssets, List.filterMap_cons, hg, ht, hlt]
  · cases hlg : loadGltf url <;> simp [expectedAssets, List.filterMap_cons, hg, hlg]

/-- Claim C5 (amended): if an asset in the requested set fails to load or
decode, `loadAssets` rejects as a whole (the failure aborts the sibling
results); an entry is excluded locally without aborting its siblings only
when its URL extension is unrecognized — when every attempted load
succeeds, the call resolves with exactly the recognized entries. -/
theorem loadAssets_amended (loadGltf loadTexture : String → Except E A) :
    ∀ entries : List (String × String),
      ((∀ p ∈ entries,
          (recognizedGltf p.2 = true → exceptIsOk (loadGltf p.2) = true) ∧
            (recognizedGltf p.2 = false → recognizedTex p.2 = true →
              exceptIsOk (loadTexture p.2) = true)) →
        loadAssets loadGltf loadTexture entries =
          .ok (expectedAssets loadGltf loadTexture entries)) ∧
      (∀ p ∈ entries,
        ((recognizedGltf p.2 = true ∧ exceptIsOk (loadGltf p.2) = false) ∨
          (recognizedGltf p.2 = false ∧ recognizedTex p.2 = true ∧
            exceptIsOk (loadTexture p.2) = false)) →
        ∃ e, loadAssets loadGltf loadTexture entries = .error e) := by
  intro entries
  induction entries with
  | nil =>
    refine ⟨fun _ => rfl, fun p hp => absurd hp (by simp)⟩
  | cons hd tl ih =>
    obtain ⟨name, url⟩ := hd
    constructor
    · intro hall
      have hhd := hall (name, url) (List.mem_cons_self _ _)
      have hrec := ih.1 (fun p hp => hall p (List.mem_cons_of_mem _ hp))
      cases hg : recognizedGltf url
      · cases ht : recognizedTex url
        · simp [loadAssets, expectedAssets_cons, hg, ht, hrec]
        · rcases hltc : loadTexture url with e | a
          · exfalso
            have h2 := hhd.2 hg ht
            rw [hltc] at h2
            simp [exceptIsOk] at h2
          · simp [loadAssets, expectedAssets_cons, hg, ht, hltc, hrec]
      · rcases hlgc : loadGltf url with e | a
        · exfalso
          have h1 := hhd.1 hg
          rw [hlgc] at h1
          simp [exceptIsOk] at h1
        · simp [loadAssets, expectedAssets_cons, hg, hlgc, hrec]
    · intro p hp hbad
      rcases List.mem_cons.mp hp with rfl | hp2
      · rcases hbad with ⟨hg, hnok⟩ | ⟨hg, ht, hnok⟩
        · rcases hlgc : loadGltf url with e | a
          · exact ⟨e, by simp [loadAssets, hg, hlgc]⟩
          · rw [hlgc] at hnok
            simp [exceptIsOk] at hnok
        · rcases hltc : loadTexture url with e | a
          · exact ⟨e, by simp [loadAssets, hg, ht, hltc]⟩
          · rw [hltc] at hnok
            simp [exceptIsOk] at hnok
      · obtain ⟨e, he⟩ := ih.2 p hp2 hbad
        cases hg : recognizedGltf url
        · cases ht : recognizedTex url
          · exact ⟨e, by simp [loadAssets, hg, ht, he]⟩
          · rcases hltc : loadTexture url with e2 | a
            · exact ⟨e2, by simp [loadAssets, hg, ht, hltc]⟩
            · exact ⟨e, by simp [loadAssets, hg, ht, hltc, he]⟩
        · rcases hlgc : loadGltf url with e2 | a
          · exact ⟨e2, by simp [loadAssets, hg, hlgc]⟩
          · exact ⟨e, by simp [loadAssets, hg, hlgc, he]⟩

/-- Witness for the amended claim C5: an unrecognized-extension entry is
excluded locally while its sibling still resolves. -/
theorem loadAssets_amended_witness :
    loadAssets (E := String) (A := String) (fun _ => .ok ("scene"))
      (fun _ => .ok ("tex")) [(("a"), ("a.xyz")), (("b"), ("b.png"))] =
      .ok [(("b"), ("tex"))] := by
  have h := (loadAssets_amended (E := String) (A := String) (fun _ => .ok ("scene"))
    (fun _ => .ok ("tex")) [(("a"), ("a.xyz")), (("b"), ("b.png"))]).1 (by decide)
  rw [h]
  rfl

end Planet
